import Mathlib

/-!
Shallow embedding of the result-processing core of the amass CLI front end
(`main.go`): the output-aggregation loop `manageOutput`, its statistics
update `updateData`, the summary printer `printSummary`, the shutdown
coordination around the `finish`/`done` channels, the rate translator
`freqToDuration`, and the line loaders `getFile`/`getWordlist`.

Machine integers are modelled as `Int` (Go `int`/`int64`); every division
the source performs is Go's truncated division, embedded as `Int.tdiv`.
Go maps are modelled as association lists in insertion order; the source
only ever reads single keys, increments counters, and iterates, so the
association-list model is faithful up to Go's randomized iteration order
(noted where it matters).
-/

namespace Amass

/-- One discovery event (`amass.AmassRequest`), restricted to the fields
`main.go` reads: `Name`, `Address`, `Source`, `Tag`, `ASN`, `ISP`, and the
CIDR text of `Netblock` (the source only uses `req.Netblock.String()`). -/
structure AmassRequest where
  Name : String
  Address : String
  Source : String
  Tag : String
  ASN : Int
  ISP : String
  Netblock : String
  deriving Repr, DecidableEq

/-- Go map read returning the value and a found flag (`data, found := m[k]`). -/
def lookupKey {κ α : Type} [BEq κ] (m : List (κ × α)) (k : κ) : Option α :=
  (m.find? (fun kv => kv.1 == k)).map (fun kv => kv.2)

/-- Go map write `m[k] = v`: replace in place when the key is present,
append otherwise (insertion order preserved). -/
def setKey {κ α : Type} [BEq κ] (m : List (κ × α)) (k : κ) (v : α) : List (κ × α) :=
  match m with
  | [] => [(k, v)]
  | kv :: rest => if kv.1 == k then (k, v) :: rest else kv :: setKey rest k v

/-- Go counter increment `m[k]++` (a missing key reads as the zero value). -/
def mapIncr {κ : Type} [BEq κ] (m : List (κ × Nat)) (k : κ) : List (κ × Nat) :=
  setKey m k (((lookupKey m k).getD 0) + 1)

/-- Per-ASN record (`asnData` in `main.go`): ISP name and per-netblock counts. -/
structure asnData where
  Name : String
  Netblocks : List (String × Nat)
  deriving Repr, DecidableEq

/-- `updateData` (main.go:186-200): bump the tag tally; on first sight of an
ASN insert a record carrying the event's ISP name and empty netblock map,
otherwise reuse the stored record; then bump that record's netblock count. -/
def updateData (req : AmassRequest) (tags : List (String × Nat))
    (asns : List (Int × asnData)) : List (String × Nat) × List (Int × asnData) :=
  let tags2 := mapIncr tags req.Tag
  let data :=
    match lookupKey asns req.ASN with
    | some d => d
    | none => { Name := req.ISP, Netblocks := [] }
  let data2 := { data with Netblocks := mapIncr data.Netblocks req.Netblock }
  (tags2, setKey asns req.ASN data2)

/-- The output configuration carried by `outputParams` (channels excluded). -/
structure outputParams where
  Verbose : Bool
  Sources : Bool
  PrintIPs : Bool
  FileOut : String
  deriving Repr, DecidableEq

/-- Go `fmt.Sprintf` left-justified minimum-width string verb (`%-14s` and
friends): pad on the right with spaces up to the width, never truncate. -/
def padRight (w : Nat) (s : String) : String :=
  s ++ String.mk (List.replicate (w - s.length) (' '))

/-- The display line built for one result (main.go:157-165): an optional
`%-14s`-formatted `[source] ` column, then `name,address` or `name`, then
a newline. -/
def lineFor (p : outputParams) (r : AmassRequest) : String :=
  let line := ""
  let line := if p.Sources then line ++ padRight 14 ("[" ++ r.Source ++ "] ") else line
  if p.PrintIPs then line ++ (r.Name ++ "," ++ r.Address) ++ "\n"
  else line ++ r.Name ++ "\n"

/-- The mutable state of `manageOutput`'s consumer loop: `total`, the tag
tally, the ASN registry, the accumulated file text `allLines`, and the
lines printed to the interactive stream so far. -/
structure OutState where
  total : Nat
  tags : List (String × Nat)
  asns : List (Int × asnData)
  allLines : String
  printed : List String
  deriving Repr, DecidableEq

/-- Loop state at entry of `manageOutput` (main.go:145-149). -/
def initOut : OutState :=
  { total := 0, tags := [], asns := [], allLines := "", printed := [] }

/-- The body of the `Results` case of the select (main.go:153-169): count the
event, update the statistics, build the line, append it to `allLines`, and
print it. -/
def stepEvent (p : outputParams) (st : OutState) (r : AmassRequest) : OutState :=
  let td := updateData r st.tags st.asns
  let line := lineFor p r
  { total := st.total + 1, tags := td.1, asns := td.2,
    allLines := st.allLines ++ line, printed := st.printed ++ [line] }

/-- Processing a whole sequence of events through the loop body, in arrival
order (the run in which no event is dropped). -/
def processAll (p : outputParams) (st : OutState) (rs : List AmassRequest) : OutState :=
  rs.foldl (stepEvent p) st

/-- The select loop of `manageOutput` (main.go:150-173) once the finish
signal is pending: Go's `select` picks uniformly at random among ready
cases, so while events remain queued each iteration makes a nondeterministic
choice, given here by `sched` (`true` = take the `Results` case, `false` =
take the `Finish` case and `break loop`). With no event queued only the
`Finish` case is ready, and the loop exits. -/
def manageLoop (p : outputParams) (sched : List Bool) (queued : List AmassRequest)
    (st : OutState) : OutState :=
  match queued, sched with
  | [], _ => st
  | _ :: _, [] => st
  | r :: rs, b :: sched2 =>
      if b then manageLoop p sched2 rs (stepEvent p st r) else st

/-- The tag section of `printSummary` (main.go:206-212): the source sets
`num, length := 1, len(tags)` and appends `", "` after an entry whenever
`num < length`, but never increments `num`, so `num` stays 1 throughout. -/
def tagEntries (num length : Nat) : List (String × Nat) → String
  | [] => ""
  | (k, v) :: rest =>
      k ++ ": " ++ toString v ++ (if num < length then ", " else "") ++
        tagEntries num length rest

/-- One netblock line of the summary (main.go:225-234): tab, `%-18s` CIDR,
tab, `%-3s` count, then `IP address` or `IP addresses`. -/
def netblockLine (cidr : String) (ips : Nat) : String :=
  "\t" ++ padRight 18 cidr ++ "\t" ++ padRight 3 (toString ips) ++ " " ++
    (if ips == 1 then "IP address\n" else "IP addresses\n")

/-- The per-ASN section of the summary (main.go:222-235). -/
def asnEntries (asns : List (Int × asnData)) : String :=
  String.join (asns.map (fun ad =>
    "ASN: " ++ toString ad.1 ++ " - " ++ ad.2.Name ++ "\n" ++
      String.join (ad.2.Netblocks.map (fun nb => netblockLine nb.1 nb.2))))

/-- The separator printed across the terminal (main.go:216-218): eight
ten-dash segments. -/
def dashLine : String := String.join (List.replicate 8 "----------")

/-- `printSummary` (main.go:202-236) as the text it sends to the terminal:
header with the total, the tag list, a newline, the dash line, a newline,
then the ASN/netblock section. -/
def printSummary (total : Nat) (tags : List (String × Nat))
    (asns : List (Int × asnData)) : String :=
  "\n" ++ toString total ++ " names discovered - " ++
    tagEntries 1 tags.length tags ++ "\n" ++ dashLine ++ "\n" ++ asnEntries asns

/-- What the finalization phase of `manageOutput` produces: the lines sent to
the terminal, the single `(path, content)` pair handed to
`ioutil.WriteFile` (if any), and the `close(params.Done)` broadcast. -/
structure FinalOutput where
  printed : List String
  fileWrite : Option (String × String)
  doneClosed : Bool
  deriving Repr, DecidableEq

/-- The code after `break loop` in `manageOutput` (main.go:174-184): print
the summary when verbose, hand `allLines` to `ioutil.WriteFile` when a file
path is set, close `Done`. `writeResult` is the value `ioutil.WriteFile`
returns; the source discards it without examining it, which the unused
binding mirrors. -/
def finalizeWith (p : outputParams) (st : OutState)
    (writeResult : Except String Unit) : FinalOutput :=
  let _ := writeResult
  { printed := st.printed ++ (if p.Verbose then [printSummary st.total st.tags st.asns] else []),
    fileWrite := if p.FileOut ≠ "" then some (p.FileOut, st.allLines) else none,
    doneClosed := true }

/-- Whole-system state for the shutdown protocol: whether `manageOutput` is
still in its select loop, the events buffered on `Results`, the number of
finish sends issued but not yet received, the loop state, the finalization
output once produced, and how many file writes have been triggered. -/
structure SysState where
  looping : Bool
  queued : List AmassRequest
  finishPending : Nat
  out : OutState
  flushed : Option FinalOutput
  writeCount : Nat
  deriving Repr, DecidableEq

/-- System state at startup (main.go:110-124): loop running, nothing flushed. -/
def initSys (queued : List AmassRequest) : SysState :=
  { looping := true, queued := queued, finishPending := 0, out := initOut,
    flushed := none, writeCount := 0 }

/-- Interleaved steps of the run. `recvEvent` is the `Results` case of the
select; `trigger` is either party sending on `finish` (main.go:135 after
`StartAmass` returns, or main.go:246 in `catchSignals` after a signal) —
the channel send itself, which blocks until received; `recvFinish` is the
`Finish` case: the loop breaks and the finalization (main.go:174-184) runs.
No rule consumes a finish send once `looping` is false: after `break loop`
the source never reads `params.Finish` again, so a late sender stays
blocked and nothing further happens. -/
inductive Step (p : outputParams) (w : Except String Unit) : SysState → SysState → Prop where
  | recvEvent : ∀ r rs fp st fl wc,
      Step p w ⟨true, r :: rs, fp, st, fl, wc⟩ ⟨true, rs, fp, stepEvent p st r, fl, wc⟩
  | trigger : ∀ s, Step p w s { s with finishPending := s.finishPending + 1 }
  | recvFinish : ∀ q fp st fl wc,
      Step p w ⟨true, q, fp + 1, st, fl, wc⟩
        ⟨false, q, fp, st, some (finalizeWith p st w),
          wc + (if p.FileOut ≠ "" then 1 else 0)⟩

/-- States reachable from startup with event buffer `q`. -/
def Reach (p : outputParams) (w : Except String Unit) (q : List AmassRequest)
    (s : SysState) : Prop :=
  Relation.ReflTransGen (Step p w) (initSys q) s

/-- Invariant tying the write count to the loop phase. -/
def SysInv (s : SysState) : Prop :=
  (s.looping = true → s.flushed = none ∧ s.writeCount = 0) ∧ s.writeCount ≤ 1

/-- ISP name the ASN registry stores for `a`, when present. -/
def ispOf (asns : List (Int × asnData)) (a : Int) : Option String :=
  (lookupKey asns a).map (fun d => d.Name)

/-- One nanosecond-denominated second (`time.Second`). -/
def Second : Int := 1000000000

/-- One nanosecond-denominated millisecond (`time.Millisecond`). -/
def Millisecond : Int := 1000000

/-- `freqToDuration` (main.go:295-312) over `Int` nanoseconds. Go divisions
truncate toward zero (`Int.tdiv`); every operand the source divides is
positive on the path that reaches it. `defaultFreq` stands for
`amass.DefaultConfig().Frequency`, which lives in the engine package
outside this file's source and is only passed through. -/
def freqToDuration (defaultFreq : Int) (freq : Int) : Int :=
  if freq > 0 then
    let d := freq
    if d < 60 then (Int.tdiv 60 d) * Second
    else
      let d2 := Int.tdiv d 60
      let m := Int.tdiv 1000 d2
      if d2 < 1000 ∧ m > 1 then m * Millisecond else defaultFreq
  else defaultFreq

/-- The scanner loop shared by `getFile` (main.go:286-291) and the fetch
branch of `getWordlist` (main.go:265-270): keep each scanned line that is
not empty, in order. -/
def scanLines : List String → List String
  | [] => []
  | w :: rest => if w ≠ "" then w :: scanLines rest else scanLines rest

/-- `getFile` (main.go:276-293) on the lines of the named file; `none`
stands for `os.Open` failing, in which case the error is printed and the
empty list returned. -/
def getFile (contents : Option (List String)) : List String :=
  match contents with
  | none => []
  | some ls => scanLines ls

/-- `getWordlist` (main.go:252-274): a non-empty path reads the local file,
otherwise the default wordlist is fetched over HTTP (`fetched = none`
stands for `http.Get` failing, returning the empty list). -/
def getWordlist (path : String) (contents : Option (List String))
    (fetched : Option (List String)) : List String :=
  if path ≠ "" then getFile contents
  else
    match fetched with
    | none => []
    | some body => scanLines body

/-- The output-line format as the spec claims it, reading `left-justified
14-character-wide` as a source column of exactly 14 characters. -/
def specLineExactWidth (p : outputParams) (r : AmassRequest) : String :=
  (if p.Sources then (padRight 14 ("[" ++ r.Source ++ "] ")).take 14 else "") ++
    (if p.PrintIPs then r.Name ++ "," ++ r.Address else r.Name) ++ "\n"

/-- The output-line format as amended: the `[source] ` column is left
justified in a minimum width of 14 characters and never truncated, so a
source tag longer than 11 characters widens the column. -/
def specLineMinWidth (p : outputParams) (r : AmassRequest) : String :=
  (if p.Sources then padRight 14 ("[" ++ r.Source ++ "] ") else "") ++
    (if p.PrintIPs then r.Name ++ "," ++ r.Address else r.Name) ++ "\n"

/-- Sample discovery event. -/
def reqA : AmassRequest :=
  ⟨"www.example.com", "93.184.216.34", "crtsh", "cert", 15133, "EdgeCast", "93.184.216.0/24"⟩

/-- Sample event whose source tag has more than 11 characters, so that
`"[" ++ source ++ "] "` is already wider than 14 characters. -/
def reqLong : AmassRequest :=
  ⟨"mail.example.com", "93.184.216.35", "googleplusurls", "scrape", 15169, "Google", "8.8.8.0/24"⟩

/-- Quiet configuration: no summary, no source column, no file output. -/
def pQuiet : outputParams := ⟨false, false, false, ""⟩

/-- Configuration showing the source column. -/
def pSources : outputParams := ⟨false, true, false, ""⟩

/-- Configuration with IP display and an output file configured. -/
def pFile : outputParams := ⟨false, false, true, "amass-out.txt"⟩

/-- A successful `ioutil.WriteFile` outcome. -/
def wOk : Except String Unit := Except.ok ()

/-- A failing `ioutil.WriteFile` outcome. -/
def writeDenied : Except String Unit :=
  Except.error ("open amass-out.txt: permission denied")

/-- Aggregator state after one event under `pFile`. -/
def stOne : OutState := processAll pFile initOut [reqA]

/-- Empty wordlist path, selecting the remote default list. -/
def noPath : String := ""

/-- A concrete wordlist path. -/
def pathW : String := "words.txt"

/-- Concrete file lines containing blanks. -/
def sampleLines : List String := ["admin", "", "api", "", ""]

/-- System state mid-run: loop still active, one finish send issued. -/
def sysMid : SysState := ⟨true, [], 1, initOut, none, 0⟩

/-- System state after the finish signal was received and the finalization
ran once. -/
def sysDone : SysState :=
  ⟨false, [], 0, initOut, some (finalizeWith pQuiet initOut wOk), 0⟩

/-- System state after a second, late finish send arrives once `done` has
already been broadcast. -/
def sysAfter : SysState := { sysDone with finishPending := 1 }

theorem empty_append_str (s : String) : "" ++ s = s := rfl

theorem foldl_append_init (init : String) (ls : List String) :
    List.foldl (fun r s => r ++ s) init ls =
      init ++ List.foldl (fun r s => r ++ s) "" ls := by
  induction ls generalizing init with
  | nil => simp [String.append_empty]
  | cons x xs ih =>
    simp only [List.foldl_cons]
    rw [ih (init ++ x), ih ("" ++ x), String.append_assoc, empty_append_str]

theorem join_cons (l : String) (ls : List String) :
    String.join (l :: ls) = l ++ String.join ls := by
  simp only [String.join, List.foldl_cons]
  rw [foldl_append_init ("" ++ l) ls, empty_append_str]

theorem processAll_allLines (p : outputParams) (rs : List AmassRequest) :
    ∀ st : OutState,
      (processAll p st rs).allLines = st.allLines ++ String.join (rs.map (lineFor p)) := by
  induction rs with
  | nil => intro st; simp [processAll, String.join, String.append_empty]
  | cons r rest ih =>
    intro st
    simp only [processAll, List.foldl_cons] at ih ⊢
    rw [ih (stepEvent p st r), List.map_cons, join_cons, ← String.append_assoc]
    rfl

/-- C4: a positive frequency below 60 per minute is translated to a delay of
`60 / maxPerMinute` seconds (truncated integer arithmetic); in particular 30
per minute gives a 2-second delay, 120 per minute gives a 500-millisecond
delay, and 0 defers to the engine-defined default delay. -/
theorem freq_translation (defaultFreq : Int) :
    (∀ f : Int, 0 < f → f < 60 →
        freqToDuration defaultFreq f = Int.tdiv 60 f * Second) ∧
    freqToDuration defaultFreq 30 = 2 * Second ∧
    freqToDuration defaultFreq 120 = 500 * Millisecond ∧
    freqToDuration defaultFreq 0 = defaultFreq := by
  refine ⟨fun f h0 h60 => ?_, by rfl, by rfl, by rfl⟩
  simp only [freqToDuration]
  rw [if_pos h0, if_pos h60]

/-- C4 witness: the general sub-60 clause applied at 45 queries per minute,
where truncation gives a 1-second delay. -/
theorem freq_translation_witness :
    freqToDuration 987654321 45 = Int.tdiv 60 45 * Second :=
  (freq_translation 987654321).1 45 (by decide) (by decide)

/-- C9: `freqToDuration` is total and resolves to the engine default not
only at 0 but on every non-positive frequency and on every frequency of
30060 or more, where the per-second rate `freq / 60` reaches 501 and the
millisecond spacing `1000 / (freq / 60)` falls to 1 or below (or the
per-second rate reaches 1000), so very high requested rates silently select
the default delay. -/
theorem freq_fallback_default (defaultFreq freq : Int)
    (h : freq ≤ 0 ∨ 30060 ≤ freq) :
    freqToDuration defaultFreq freq = defaultFreq := by
  rcases h with h | h
  · simp only [freqToDuration]
    rw [if_neg (by omega)]
  · have hd2 : 501 ≤ Int.tdiv freq 60 := by
      rw [Int.tdiv_eq_ediv (by omega) (by omega)]
      omega
    have hm : Int.tdiv 1000 (Int.tdiv freq 60) < 2 := by
      rw [Int.tdiv_eq_ediv (by omega) (by omega)]
      exact (Int.ediv_lt_iff_lt_mul (by omega)).mpr (by omega)
    simp only [freqToDuration]
    rw [if_pos (by omega : freq > 0), if_neg (by omega : ¬ freq < 60),
      if_neg (by omega : ¬ (Int.tdiv freq 60 < 1000 ∧ Int.tdiv 1000 (Int.tdiv freq 60) > 1))]

/-- C9 witness: the fallback on a negative frequency and exactly at the
30060 threshold, next to the last translated frequency 30059. -/
theorem freq_fallback_default_witness :
    freqToDuration 424242 30060 = 424242 ∧ freqToDuration 424242 (-7) = 424242 :=
  ⟨freq_fallback_default 424242 30060 (Or.inr (by decide)),
    freq_fallback_default 424242 (-7) (Or.inl (by decide))⟩

/-- C1: the claim asserts that every event already queued on the results
channel when finish arrives is still processed, so the final total always
equals the number of events sent. Go's `select` picks uniformly at random
among ready cases (the `Finish` case carries no priority), so with one event
queued and the finish send pending there is a run — the schedule that takes
the `Finish` case first — in which the loop exits with total 0 instead of 1;
draining the event instead would have given total 1. -/
theorem select_can_drop_queued_event :
    (manageLoop pQuiet [false] [reqA] initOut).total = 0 ∧
      (processAll pQuiet initOut [reqA]).total = 1 :=
  ⟨rfl, rfl⟩

/-- C3: for every run with an output file configured, the content handed to
the single `ioutil.WriteFile` call at finish time is exactly the
concatenation, in arrival order, of the formatted lines of the processed
events. -/
theorem file_content_is_concatenation (p : outputParams) (evs : List AmassRequest)
    (w : Except String Unit) (hfile : p.FileOut ≠ "") :
    (finalizeWith p (processAll p initOut evs) w).fileWrite =
      some (p.FileOut, String.join (evs.map (lineFor p))) := by
  simp only [finalizeWith]
  rw [if_pos hfile, processAll_allLines p evs initOut]
  rfl

/-- C3 witness: a two-event run with file output configured. -/
theorem file_content_is_concatenation_witness :
    (finalizeWith pFile (processAll pFile initOut [reqA, reqLong]) wOk).fileWrite =
      some (pFile.FileOut, String.join ([reqA, reqLong].map (lineFor pFile))) :=
  file_content_is_concatenation pFile [reqA, reqLong] wOk (by decide)

/-- C6 counterexample: the claim says a failed output-file write is reported
to the operator, but `manageOutput` discards `ioutil.WriteFile`'s return
value, so with the write failing every observable part of finalization —
the printed lines, the attempted write, the `done` broadcast — is identical
to the successful-write run: nothing surfaces the failure. -/
theorem write_failure_not_surfaced :
    finalizeWith pFile stOne writeDenied = finalizeWith pFile stOne wOk ∧
      (finalizeWith pFile stOne writeDenied).doneClosed = true :=
  ⟨rfl, rfl⟩

/-- C6 amended: a failed write does not crash the process and the run still
completes — the summary lines and the `done` broadcast are exactly those of
a successful run — but the failure is silently discarded, not surfaced. -/
theorem write_failure_does_not_crash (p : outputParams) (st : OutState) (e : String) :
    finalizeWith p st (Except.error e) = finalizeWith p st wOk ∧
      (finalizeWith p st (Except.error e)).doneClosed = true :=
  ⟨rfl, rfl⟩

/-- C7: the claim says the separator appears between adjacent `tag: count`
entries and not after the last one, but `printSummary` sets
`num, length := 1, len(tags)` and never increments `num`, so whenever there
are two or more tags every entry — the last included — is followed by
`", "`. The 80-character dash line itself is as claimed. -/
theorem summary_trailing_separator :
    printSummary 2 [("scrape", 1), ("cert", 1)] [] =
      "\n2 names discovered - scrape: 1, cert: 1, \n" ++ dashLine ++ "\n" ∧
      dashLine.length = 80 := by
  constructor <;> rfl

/-- C8 counterexample: the claim fixes the source column at 14 characters
for every possible source tag, but `%-14s` is a minimum width: the tag
`googleplusurls` makes `"[googleplusurls] "` 17 characters, which the code
emits untruncated, so the emitted line differs from the claimed
exactly-14-character layout. -/
theorem wide_source_not_14 :
    lineFor pSources reqLong ≠ specLineExactWidth pSources reqLong ∧
      (padRight 14 ("[" ++ reqLong.Source ++ "] ")).length = 17 := by
  constructor
  · decide
  · rfl

/-- C8 amended: for every configuration and event the emitted line is
exactly an optional left-justified minimum-14-character-wide `[source] `
column (padded with spaces, never truncated), followed by
`hostname,address` when IP display is enabled or `hostname` otherwise,
terminated by a newline. -/
theorem line_format_min_width (p : outputParams) (r : AmassRequest) :
    lineFor p r = specLineMinWidth p r := by
  simp only [lineFor, specLineMinWidth]
  cases hs : p.Sources <;> cases hip : p.PrintIPs <;>
    simp [hs, hip, empty_append_str, String.append_assoc]

theorem scanLines_eq_filter (ls : List String) :
    scanLines ls = ls.filter (fun w => w ≠ "") := by
  induction ls with
  | nil => rfl
  | cons w rest ih =>
    by_cases h : w = "" <;> simp [scanLines, h, ih]

/-- C10: the wordlist and domains loaders drop every empty scanned line:
the shared scanner loop, `getFile` on a readable file, and `getWordlist`
in both its local-file and fetched-default branches return exactly the
non-empty lines of their input, in original order. -/
theorem loaders_drop_empty_lines (ls : List String) (path : String) :
    scanLines ls = ls.filter (fun w => w ≠ "") ∧
      getFile (some ls) = ls.filter (fun w => w ≠ "") ∧
      getWordlist noPath none (some ls) = ls.filter (fun w => w ≠ "") ∧
      (path ≠ "" → getWordlist path (some ls) none = ls.filter (fun w => w ≠ "")) := by
  refine ⟨scanLines_eq_filter ls, scanLines_eq_filter ls, ?_, fun h => ?_⟩
  · simp [getWordlist, noPath, scanLines_eq_filter]
  · simp [getWordlist, getFile, h, scanLines_eq_filter]

/-- C10 witness: a file with blank lines, loaded through a concrete path. -/
theorem loaders_drop_empty_lines_witness :
    scanLines sampleLines = ["admin", "api"] ∧
      getWordlist pathW (some sampleLines) none = ["admin", "api"] := by
  have h := loaders_drop_empty_lines sampleLines pathW
  refine ⟨?_, ?_⟩
  · rw [h.1]; rfl
  · rw [h.2.2.2 (by decide)]; rfl

theorem lookupKey_cons {κ α : Type} [BEq κ] (k1 : κ) (v1 : α)
    (t : List (κ × α)) (k2 : κ) :
    lookupKey ((k1, v1) :: t) k2 = if k1 == k2 then some v1 else lookupKey t k2 := by
  simp only [lookupKey, List.find?]
  cases hb : k1 == k2 <;> simp [hb]

theorem lookupKey_setKey {κ α : Type} [BEq κ] [LawfulBEq κ]
    (m : List (κ × α)) (k k2 : κ) (v : α) :
    lookupKey (setKey m k v) k2 = if k2 == k then some v else lookupKey m k2 := by
  induction m with
  | nil =>
    by_cases h : k2 = k
    · subst h
      simp [setKey, lookupKey, List.find?]
    · have hb1 : (k == k2) = false := beq_eq_false_iff_ne.mpr (fun hh => h hh.symm)
      have hb2 : (k2 == k) = false := beq_eq_false_iff_ne.mpr h
      simp [setKey, lookupKey, List.find?, hb1, hb2]
  | cons kv rest ih =>
    obtain ⟨k1, v1⟩ := kv
    simp only [setKey]
    by_cases h1 : k1 = k
    · have hb1 : (k1 == k) = true := beq_iff_eq.mpr h1
      rw [if_pos hb1, lookupKey_cons, lookupKey_cons]
      by_cases h : k2 = k
      · subst h
        simp
      · have hbA : (k == k2) = false := beq_eq_false_iff_ne.mpr (fun hh => h hh.symm)
        have hbB : (k2 == k) = false := beq_eq_false_iff_ne.mpr h
        have hbC : (k1 == k2) = false := by rw [h1]; exact hbA
        simp [hbA, hbB, hbC]
    · have hb1 : (k1 == k) = false := beq_eq_false_iff_ne.mpr h1
      rw [if_neg (by simp [hb1]), lookupKey_cons, lookupKey_cons, ih]
      by_cases h3 : k1 = k2
      · subst h3
        simp [hb1]
      · have hb3 : (k1 == k2) = false := beq_eq_false_iff_ne.mpr h3
        simp [hb3]

theorem ispOf_updateData (r : AmassRequest) (tags : List (String × Nat))
    (asns : List (Int × asnData)) (a : Int) :
    ispOf (updateData r tags asns).2 a =
      if a == r.ASN then some ((ispOf asns r.ASN).getD r.ISP) else ispOf asns a := by
  simp only [updateData, ispOf]
  rw [lookupKey_setKey]
  by_cases h : a = r.ASN <;>
    cases hl : lookupKey asns r.ASN <;>
      simp [h, hl]

theorem ispOf_processAll (p : outputParams) (evs : List AmassRequest) :
    ∀ (st : OutState) (a : Int),
      ispOf (processAll p st evs).asns a =
        (ispOf st.asns a).or ((evs.find? (fun r => r.ASN == a)).map (fun r => r.ISP)) := by
  induction evs with
  | nil =>
    intro st a
    cases h : ispOf st.asns a <;> simp [processAll, Option.or, h]
  | cons r rest ih =>
    intro st a
    simp only [processAll, List.foldl_cons] at ih ⊢
    rw [ih (stepEvent p st r) a]
    have hstep : (stepEvent p st r).asns = (updateData r st.tags st.asns).2 := rfl
    rw [hstep, ispOf_updateData]
    by_cases h : r.ASN = a
    · subst h
      cases hsa : ispOf st.asns r.ASN <;>
        simp [List.find?, Option.or, hsa]
    · have h2 : ¬ a = r.ASN := fun hh => h hh.symm
      have hb : (r.ASN == a) = false := beq_eq_false_iff_ne.mpr h
      simp [List.find?, Option.or, h, h2, hb]

/-- C5: in every drained run, the ISP name the ASN registry stores for an
ASN is the one carried by the first processed event with that ASN —
first-seen wins, preserved by every later update, even when later events
carry a different ISP name. -/
theorem isp_first_seen_wins (p : outputParams) (evs : List AmassRequest) (a : Int) :
    ispOf (processAll p initOut evs).asns a =
      (evs.find? (fun r => r.ASN == a)).map (fun r => r.ISP) := by
  rw [ispOf_processAll p evs initOut a]
  rfl

theorem sysInv_init (q : List AmassRequest) : SysInv (initSys q) :=
  ⟨fun _ => ⟨rfl, rfl⟩, by simp [initSys]⟩

theorem sysInv_step (p : outputParams) (w : Except String Unit) (s s2 : SysState)
    (hs : Step p w s s2) (hinv : SysInv s) : SysInv s2 := by
  cases hs with
  | recvEvent r rs fp st fl wc =>
    obtain ⟨h1, h2⟩ := hinv
    exact ⟨fun _ => h1 rfl, h2⟩
  | trigger s =>
    exact hinv
  | recvFinish q fp st fl wc =>
    obtain ⟨h1, _⟩ := hinv
    obtain ⟨_, hwc⟩ := h1 rfl
    have hwc2 : wc = 0 := hwc
    refine ⟨fun hh => by simp at hh, ?_⟩
    show (wc + if p.FileOut ≠ "" then 1 else 0) ≤ 1
    rw [hwc2]
    split <;> omega

theorem sysInv_reach (p : outputParams) (w : Except String Unit)
    (q : List AmassRequest) (s : SysState) (h : Reach p w q s) : SysInv s := by
  induction h with
  | refl => exact sysInv_init q
  | tail _ hstep ih => exact sysInv_step p w _ _ hstep ih

theorem step_after_break (p : outputParams) (w : Except String Unit) (s s2 : SysState)
    (hs : Step p w s s2) (hdone : s.looping = false) :
    s2.out = s.out ∧ s2.flushed = s.flushed ∧
      s2.writeCount = s.writeCount ∧ s2.looping = false := by
  cases hs with
  | recvEvent r rs fp st fl wc => simp at hdone
  | trigger s => exact ⟨rfl, rfl, rfl, hdone⟩
  | recvFinish q fp st fl wc => simp at hdone

/-- C2: along every reachable run the file write fires at most once, and
once the consumer has left its loop (`done` observable), any further step —
in particular a second, late finish send from the other shutdown trigger —
is a no-op: it changes neither the aggregate statistics nor the finalized
output, and cannot re-trigger the file write. -/
theorem finish_one_shot (p : outputParams) (w : Except String Unit)
    (q : List AmassRequest) (s s2 : SysState)
    (hreach : Reach p w q s) (hstep : Step p w s s2) (hdone : s.looping = false) :
    s.writeCount ≤ 1 ∧ s2.out = s.out ∧ s2.flushed = s.flushed ∧
      s2.writeCount = s.writeCount ∧ s2.writeCount ≤ 1 := by
  have hinv := sysInv_reach p w q s hreach
  have hfr := step_after_break p w s s2 hstep hdone
  exact ⟨hinv.2, hfr.1, hfr.2.1, hfr.2.2.1, hfr.2.2.1 ▸ hinv.2⟩

theorem reach_sysDone : Reach pQuiet wOk [] sysDone :=
  Relation.ReflTransGen.tail
    (Relation.ReflTransGen.tail Relation.ReflTransGen.refl
      (show Step pQuiet wOk (initSys []) sysMid from Step.trigger (initSys [])))
    (show Step pQuiet wOk sysMid sysDone from Step.recvFinish [] 0 initOut none 0)

/-- C2 witness: a concrete run — engine completion fires finish, the loop
breaks and finalizes — followed by a late second finish send, which leaves
the statistics, the finalized output and the write count untouched. -/
theorem finish_one_shot_witness :
    sysDone.writeCount ≤ 1 ∧ sysAfter.out = sysDone.out ∧
      sysAfter.flushed = sysDone.flushed ∧
      sysAfter.writeCount = sysDone.writeCount ∧ sysAfter.writeCount ≤ 1 :=
  finish_one_shot pQuiet wOk [] sysDone sysAfter reach_sysDone
    (show Step pQuiet wOk sysDone sysAfter from Step.trigger sysDone) rfl

end Amass
